import Mathlib

/-!
Shallow embedding of the aggregated multi-source search core of the
OuonnkiTV `ApiService` class: the source-health store, the adaptive
concurrency planner, the concurrency limiter, the in-flight request
deduplicator, the single-source fetch, and the aggregation orchestrator
(abort handling, seen-set dedup, top-K early abort, all-settle join).
Numbers are modelled as exact rationals, JS Maps as association lists or
functions, and the single-threaded cooperative scheduler as explicit
event traces over state-transition functions.
-/

namespace OuonnkiTV

/-! ## Health Store (`sourceHealth`, `updateHealth`, `getSourceScore`) -/

/-- One per-source health record, as stored in `this.sourceHealth`. -/
structure HealthRec where
  avgLatencyMs : ℚ
  successCount : ℕ
  failureCount : ℕ
  lastLatencyMs : ℚ
  lastUpdatedAt : ℕ
  deriving Repr, DecidableEq

/-- The `sourceHealth` map: source code to its record (absent = no record). -/
def HealthMap := String → Option HealthRec

/-- The empty health map (fresh service, no persisted history). -/
def emptyHealth : HealthMap := fun _ => none

/-- `updateHealth(sourceCode, ok, latencyMs)`: fetch-or-create the record
(created with `avgLatencyMs = latencyMs` and zero counts), set
`lastLatencyMs`/`lastUpdatedAt`, then on success bump `successCount` and
smooth `avg = avg*0.7 + latency*0.3`; on failure bump `failureCount` and
smooth `avg = avg*0.8 + latency*0.2`.  `now` stands for `Date.now()`. -/
def updateHealth (h : HealthMap) (sourceCode : String) (ok : Bool)
    (latencyMs : ℚ) (now : ℕ) : HealthMap :=
  let rec0 := (h sourceCode).getD
    { avgLatencyMs := latencyMs
      successCount := 0
      failureCount := 0
      lastLatencyMs := latencyMs
      lastUpdatedAt := now }
  let rec1 :=
    if ok then
      { rec0 with
        lastLatencyMs := latencyMs
        lastUpdatedAt := now
        successCount := rec0.successCount + 1
        avgLatencyMs := rec0.avgLatencyMs * (7/10) + latencyMs * (3/10) }
    else
      { rec0 with
        lastLatencyMs := latencyMs
        lastUpdatedAt := now
        failureCount := rec0.failureCount + 1
        avgLatencyMs := rec0.avgLatencyMs * (8/10) + latencyMs * (2/10) }
  fun s => if s = sourceCode then some rec1 else h s

/-- `getSourceScore(sourceCode)`: 0 when no record; otherwise
`successRate*0.7 + latencyScore*0.3` with `successRate = succ/total`
(0.5 when `total = 0`) and `latencyScore = 1/max(100, avgLatencyMs)`. -/
def getSourceScore (h : HealthMap) (sourceCode : String) : ℚ :=
  match h sourceCode with
  | none => 0
  | some rec =>
    let total : ℕ := rec.successCount + rec.failureCount
    let successRate : ℚ :=
      if 0 < total then (rec.successCount : ℚ) / (total : ℚ) else 1/2
    let latencyScore : ℚ := 1 / max 100 rec.avgLatencyMs
    successRate * (7/10) + latencyScore * (3/10)

/-! ## Adaptive Concurrency Planner (`getAdaptiveConcurrency`) -/

/-- JavaScript `Math.round` on a (non-negative, in our uses) rational:
round half away from zero, i.e. `⌊q + 1/2⌋` for `q ≥ 0`. -/
def jsRound (q : ℚ) : ℤ := ⌊q + 1/2⌋

/-- Sum of `successCount + failureCount` over the selected sources'
records (`total` accumulator of the loop in `getAdaptiveConcurrency`). -/
def totalAttempts (h : HealthMap) (selected : List String) : ℕ :=
  selected.foldl
    (fun acc id => match h id with
      | some rec => acc + (rec.successCount + rec.failureCount)
      | none => acc) 0

/-- Sum of `failureCount` over the selected sources' records
(`failureRatio` accumulator before the division). -/
def totalFailures (h : HealthMap) (selected : List String) : ℕ :=
  selected.foldl
    (fun acc id => match h id with
      | some rec => acc + rec.failureCount
      | none => acc) 0

/-- `getAdaptiveConcurrency(selectedAPIs)`: with configured `base`/`min`/`max`
and the network factor, compute `failureRatio` over the selected sources,
`healthFactor = max(0.6, 1 - failureRatio)`, then
`Math.min(max, Math.max(min, Math.round(base*netFactor*healthFactor)))`.
`base`, `mn`, `mx` model `AGGREGATED_SEARCH_CONFIG.{base,min,max}Concurrency`
(defaults 3/1/6) and `netFactor` the `getNetworkFactor()` reading. -/
def getAdaptiveConcurrency (h : HealthMap) (selected : List String)
    (netFactor : ℚ) (base mn mx : ℤ) : ℤ :=
  let total := totalAttempts h selected
  let failureRatio : ℚ :=
    if 0 < total then (totalFailures h selected : ℚ) / (total : ℚ) else 0
  let healthFactor : ℚ := max (3/5) (1 - failureRatio)
  let c := jsRound ((base : ℚ) * netFactor * healthFactor)
  min mx (max mn c)

/-! ## Concurrency Limiter (`createConcurrencyLimiter`)

The limiter closure holds a `running` counter and a FIFO `queue` of task
thunks.  `run(task)` pushes the thunk and calls `tryRun()`; when any
running task settles, its `finally` decrements `running` and calls
`tryRun()` again.  We model the closure state explicitly and the
single-threaded scheduler as a trace of submit/finish events; `drain`
is `tryRun`'s while loop. -/

/-- `tryRun()`: while `running < limit` and the queue is non-empty, shift
the queue head, increment `running` and start it.  Returns the new
`running` counter, the remaining queue and the extended start list. -/
def drain (lim : ℕ) : ℕ → List ℕ → List ℕ → ℕ × List ℕ × List ℕ
  | running, [], started => (running, [], started)
  | running, t :: rest, started =>
    if running < lim then drain lim (running + 1) rest (started ++ [t])
    else (running, t :: rest, started)

/-- Scheduler events for one limiter: `submit t` is a call to the returned
`run` function with task `t`; `finish t ok` is the settlement of started
task `t` (with success flag `ok`), firing the `finally` handler. -/
inductive LEvent where
  | submit (t : ℕ)
  | finish (t : ℕ) (ok : Bool)
  deriving Repr, DecidableEq

/-- The limiter closure state together with the observation history:
`started` records tasks in the order `tryRun` started them, `settled`
records each settled task with the outcome delivered to its caller, and
`submitted` records tasks in `run`-call order. -/
structure LimState where
  limit : ℕ
  running : ℕ
  queue : List ℕ
  started : List ℕ
  settled : List (ℕ × Bool)
  submitted : List ℕ
  deriving Repr, DecidableEq

/-- Tasks that have settled, in settlement order. -/
def settledIds (s : LimState) : List ℕ := s.settled.map Prod.fst

/-- One scheduler step: `submit` pushes the task and drains (`run` pushes
the thunk then calls `tryRun`); `finish` decrements `running`, records the
task's own outcome for its caller, and drains (the `finally` handler). -/
def limStep (s : LimState) : LEvent → LimState
  | .submit t =>
    let d := drain s.limit s.running (s.queue ++ [t]) s.started
    { s with
      submitted := s.submitted ++ [t]
      running := d.1
      queue := d.2.1
      started := d.2.2 }
  | .finish t ok =>
    let d := drain s.limit (s.running - 1) s.queue s.started
    { s with
      settled := s.settled ++ [(t, ok)]
      running := d.1
      queue := d.2.1
      started := d.2.2 }

/-- Run a trace of scheduler events from a state. -/
def limRun (s : LimState) (tr : List LEvent) : LimState := tr.foldl limStep s

/-- A freshly constructed limiter: `running = 0`, empty queue. -/
def limInit (limit : ℕ) : LimState :=
  { limit := limit, running := 0, queue := [], started := [], settled := [], submitted := [] }

/-- Trace well-formedness for the single-threaded scheduler: each submitted
task id is fresh, and only a started, not-yet-settled task can finish. -/
def limWF : LimState → List LEvent → Bool
  | _, [] => true
  | s, .submit t :: es =>
    !(decide (t ∈ s.submitted)) && limWF (limStep s (.submit t)) es
  | s, .finish t ok :: es =>
    decide (t ∈ s.started) && !(decide (t ∈ settledIds s))
      && limWF (limStep s (.finish t ok)) es

/-- Invariants of the limiter closure: the counter is bounded by the
limit, tasks start in FIFO submission order (`started` followed by the
residual `queue` is exactly the submission order), the queue is empty
whenever capacity is spare, the counter counts started-but-unsettled
tasks, and the bookkeeping lists are duplicate-free. -/
structure LimInv (s : LimState) : Prop where
  run_le : s.running ≤ s.limit
  fifo : s.started ++ s.queue = s.submitted
  drained : s.running < s.limit → s.queue = []
  count : s.running + s.settled.length = s.started.length
  sub_nodup : s.submitted.Nodup
  settled_sub : ∀ t, t ∈ settledIds s → t ∈ s.started
  settled_nodup : (settledIds s).Nodup

/-! ## Request Deduplicator (`inflightRequests` in `searchVideos`)

`searchVideos` computes `requestKey = PROXY_URL + encodeURIComponent(apiUrl)`
and, if `inflightRequests` has no entry for the key, invokes `exec()` and
registers the returned promise; every caller then awaits the registered
promise.  `exec`'s `finally` deletes the key entry when the request
settles.  We model the map as an association list from keys to numbered
factory executions, and the scheduler as call/settle event traces. -/

/-- `Map.get` on an association list (JS Maps have unique keys, so first
match is the match). -/
def alookup {β : Type} (a : String) : List (String × β) → Option β
  | [] => none
  | p :: rest => if p.1 = a then some p.2 else alookup a rest

/-- Deduplicator events: `call c k` is a `searchVideos` invocation by
caller `c` whose normalized request URL is `k`; `settle e ok` is the
settlement (success or failure) of factory execution `e`, which runs the
`finally` deletion. -/
inductive DEvent where
  | call (c : ℕ) (k : String)
  | settle (e : ℕ) (ok : Bool)
  deriving Repr, DecidableEq

/-- Deduplicator state: `inflight` is the `inflightRequests` map (key to
pending execution id), `execKeys` the creation log recording the request
key each execution was issued for, `nextExec` numbers factory executions
(each number is one upstream fetch), `assignments` records which execution
each caller awaits. -/
structure DedupState where
  inflight : List (String × ℕ)
  execKeys : List (ℕ × String)
  nextExec : ℕ
  assignments : List (ℕ × ℕ)
  deriving Repr, DecidableEq

/-- Key of a recorded execution (association-list lookup over ℕ keys). -/
def execKeyOf (l : List (ℕ × String)) (e : ℕ) : Option String :=
  match l with
  | [] => none
  | p :: rest => if p.1 = e then some p.2 else execKeyOf rest e

/-- One deduplicator step.  A call looks the key up: on a hit the caller
just awaits the registered promise (no new factory execution); on a miss a
fresh execution is issued and registered under the key.  A settlement runs
`exec`'s `finally`: `inflightRequests.delete(requestKey)` for the settled
execution's own key, unconditionally, whatever the outcome. -/
def dstep (s : DedupState) : DEvent → DedupState
  | .call c k =>
    match alookup k s.inflight with
    | some e => { s with assignments := s.assignments ++ [(c, e)] }
    | none =>
      { s with
        inflight := s.inflight ++ [(k, s.nextExec)]
        execKeys := s.execKeys ++ [(s.nextExec, k)]
        nextExec := s.nextExec + 1
        assignments := s.assignments ++ [(c, s.nextExec)] }
  | .settle e _ =>
    match execKeyOf s.execKeys e with
    | some k => { s with inflight := s.inflight.filter (fun p => decide (p.1 ≠ k)) }
    | none => s

/-- Run a trace of deduplicator events. -/
def drun (s : DedupState) (tr : List DEvent) : DedupState := tr.foldl dstep s

/-- A fresh service: empty `inflightRequests`, no executions issued. -/
def dinit : DedupState :=
  { inflight := [], execKeys := [], nextExec := 0, assignments := [] }

/-- Deduplicator invariants: the `inflightRequests` keys are unique (it is
a Map), every pending execution was issued (numbered below `nextExec`),
the creation log gives each pending execution its registered key, and the
log only contains issued executions. -/
structure DInv (s : DedupState) : Prop where
  keys_nodup : (s.inflight.map Prod.fst).Nodup
  execs_lt : ∀ p ∈ s.inflight, p.2 < s.nextExec
  exec_key : ∀ p ∈ s.inflight, execKeyOf s.execKeys p.2 = some p.1
  ek_lt : ∀ q ∈ s.execKeys, q.1 < s.nextExec

/-! ## Single-Source Fetcher (the `exec` closure of `searchVideos`)

`exec` times the request, validates HTTP status (`response.ok`) and shape
(`Array.isArray(data.list)`), tags each item with its source, records
success or failure with the elapsed latency into the health store, and
re-raises any error to whoever awaits the deduplicated promise. -/

/-- A result item, with the source-tagging fields `searchVideos` writes. -/
structure VItem where
  source_code : String
  vod_id : String
  source_name : String
  api_url : Option String
  deriving Repr, DecidableEq

/-- What the transport layer handed back to `exec`: a rejection (network
error, or timeout/cancellation surfacing as an abort), or an HTTP
response with its `ok` flag, status and optional parsed `list` field
(`none` models a body whose `list` is not an array). -/
inductive FetchOutcome where
  | fetchError (name : String)
  | response (ok : Bool) (status : ℕ) (listField : Option (List VItem))
  deriving Repr, DecidableEq

/-- The success payload `exec` returns (`{ code: 200, list }`). -/
structure SearchResponse where
  code : ℕ
  list : List VItem
  deriving Repr, DecidableEq

/-- The per-item tagging loop: set `source_name`, `source_code`, and for a
custom source the endpoint URL. -/
def tagItems (source : String) (customApi : Option String) (sourceName : String)
    (items : List VItem) : List VItem :=
  items.map fun it =>
    { it with
      source_name := sourceName
      source_code := source
      api_url := if source = "custom" then customApi else it.api_url }

/-- The body of `exec`: on a transport rejection, a non-ok status, or a
missing `list` field, record a failure with the elapsed latency and
re-raise; otherwise tag the items, record a success with the elapsed
latency, and return `{ code: 200, list }`. -/
def execSearch (source : String) (customApi : Option String) (sourceName : String)
    (fetched : FetchOutcome) (elapsed : ℚ) (now : ℕ) (h : HealthMap) :
    Except String SearchResponse × HealthMap :=
  match fetched with
  | .fetchError name => (.error name, updateHealth h source false elapsed now)
  | .response ok status listField =>
    if ok = false then
      (.error ("API请求失败: " ++ toString status), updateHealth h source false elapsed now)
    else
      match listField with
      | none => (.error "API返回的数据格式无效", updateHealth h source false elapsed now)
      | some items =>
        (.ok { code := 200, list := tagItems source customApi sourceName items },
          updateHealth h source true elapsed now)

/-! ## Aggregation Orchestrator: entry checks and the final join

`aggregatedSearch` first resolves `[]` for an empty selection, then
rejects `AbortError` for an already-aborted signal; otherwise it builds
the per-source tasks and returns
`Promise.race([Promise.all(tasks), abortPromise])` where `abortPromise`
rejects with `AbortError` when the external signal fires.  Promises are
modelled by their settlement time and outcome. -/

/-- A settled promise in the discrete-time model: when it settles and
whether it rejected (`none` = resolved). -/
structure MProm where
  time : ℕ
  rejectedWith : Option String
  deriving Repr, DecidableEq

/-- The earliest rejected member of a promise list, if any
(`Promise.all` rejects with the first rejection). -/
def earliestRejection (ps : List MProm) : Option MProm :=
  ps.foldl
    (fun acc p =>
      if p.rejectedWith = none then acc
      else match acc with
        | none => some p
        | some q => if p.time < q.time then some p else some q)
    none

/-- `Promise.all`: rejects with the earliest member rejection; otherwise
resolves once the last member has resolved. -/
def pAll (ps : List MProm) : MProm :=
  match earliestRejection ps with
  | some q => q
  | none => { time := ps.foldl (fun m p => max m p.time) 0, rejectedWith := none }

/-- `Promise.race` of a promise against an optional second promise (the
abort promise never settles if the signal never fires).  At equal times
the discrete model lets the first argument win; the source's behaviour at
a simultaneous settlement is scheduler-dependent and no claim rests on
ties. -/
def pRace2 (a : MProm) (b : Option MProm) : MProm :=
  match b with
  | none => a
  | some q => if q.time < a.time then q else a

/-- A per-source task promise.  The task body catches every fetch error
(non-cancellation failures are logged and yield zero results), so each
scheduled task settles by resolving, at its settlement time. -/
def taskProm (t : ℕ) : MProm := { time := t, rejectedWith := none }

/-- The composition on the dispatch path of `aggregatedSearch`:
`Promise.race([Promise.all(tasks), abortPromise])`, with `abortPromise`
rejecting `AbortError` at the signal's firing time (absent if the signal
never fires; with no signal the race degenerates to `Promise.all`). -/
def aggregatedJoin (taskTimes : List ℕ) (abortAt : Option ℕ) : MProm :=
  pRace2 (pAll (taskTimes.map taskProm))
    (abortAt.map fun a => { time := a, rejectedWith := some "AbortError" })

/-- The entry checks of `aggregatedSearch` (lines before any task is
built): an empty selection resolves `[]` immediately; otherwise an
already-aborted external signal rejects `AbortError` immediately;
otherwise the per-source tasks are dispatched. -/
inductive EntryResult where
  | immediateResolve
  | immediateReject (errName : String)
  | proceed (apis : List String)
  deriving Repr, DecidableEq

/-- The prologue of `aggregatedSearch`: `selectedAPIs.length === 0` is
checked first (resolve `[]`), then `signal.aborted` (reject
`AbortError`); only past both checks are the per-source tasks created. -/
def aggregatedSearchEntry (selected : List String) (signalAborted : Bool) : EntryResult :=
  if selected.length = 0 then .immediateResolve
  else if signalAborted then .immediateReject "AbortError"
  else .proceed selected

/-- Upstream requests issued by each entry outcome: fetches happen only
inside dispatched per-source tasks; both immediate branches return before
the task array is built. -/
def entryRequestCount : EntryResult → ℕ
  | .proceed l => l.length
  | _ => 0

/-! ## Aggregation Orchestrator: session state (seen set, per-source
controllers, top-K early abort, aborted flag)

One `aggregatedSearch` call owns the `aborted` flag (set by the external
signal's listener), the `seen` key set, the `perSourceControllers` map and
the `reachedTopK` counter.  The single-threaded scheduler interleaves
whole synchronous sections: a task's start section (the `aborted` check
and controller registration) and its post-fetch continuation (the
`finally` deletion, the `aborted` check, the seen-filter, the callback
and the top-K abort) each run atomically, and the external abort listener
runs between sections. -/

/-- The session dedup identity: `` `${item.source_code}_${item.vod_id}` ``. -/
def dedupKey (it : VItem) : String := it.source_code ++ "_" ++ it.vod_id

/-- The `results.filter` over the `seen` set: walk the list in order,
dropping items whose key is already seen and adding each kept item's key
to `seen`.  Returns the kept items and the grown `seen` set. -/
def filterNew (seen : List String) : List VItem → List VItem × List String
  | [] => ([], seen)
  | it :: rest =>
    if dedupKey it ∈ seen then filterNew seen rest
    else
      let p := filterNew (seen ++ [dedupKey it]) rest
      (it :: p.1, p.2)

/-- Session state of one `aggregatedSearch` call: the externally-set
`aborted` flag, the append-only `seen` set, the source ids currently in
`perSourceControllers`, the log of controllers that have been told to
abort, the count of sources that contributed a new unique item, the
sequence of `onNewResults` deliveries, and the top-K configuration. -/
structure SessionState where
  aborted : Bool
  seen : List String
  controllers : List String
  triggered : List String
  reachedTopK : ℕ
  delivered : List (List VItem)
  topK : ℕ
  earlyAbort : Bool
  deriving Repr, DecidableEq

/-- Session events: a per-source task's start section, a task's
post-fetch continuation carrying the fetched results (`[]` for a handled
failure), and the external signal firing. -/
inductive SEvent where
  | taskStart (src : String)
  | taskDone (src : String) (results : List VItem)
  | externalAbort
  deriving Repr, DecidableEq

/-- One synchronous section.  `taskStart`: `if (aborted) return`, else
register the source's private controller.  `taskDone`: the `finally`
removes the controller; `if (aborted) return` discards the results before
the seen-filter; otherwise filter, and when ≥ 1 new unique item remains,
bump `reachedTopK`, deliver the batch via `onNewResults`, and — when
`earlyAbortAfterTopK` is set, the threshold is reached and the session is
not aborted — trigger every controller still registered (`abortRest`).
`externalAbort`: the listeners set `aborted` and trigger every registered
controller. -/
def sstep (s : SessionState) : SEvent → SessionState
  | .taskStart src =>
    if s.aborted then s
    else { s with controllers := s.controllers ++ [src] }
  | .taskDone src results =>
    let s0 := { s with controllers := s.controllers.filter (fun x => decide (x ≠ src)) }
    if s0.aborted then s0
    else
      let fn := filterNew s0.seen results
      if 0 < fn.1.length then
        let s1 := { s0 with
          seen := fn.2
          reachedTopK := s0.reachedTopK + 1
          delivered := s0.delivered ++ [fn.1] }
        if s1.earlyAbort = true ∧ s1.topK ≤ s1.reachedTopK ∧ s1.aborted = false then
          { s1 with triggered := s1.triggered ++ s1.controllers }
        else s1
      else { s0 with seen := fn.2 }
  | .externalAbort =>
    { s with aborted := true, triggered := s.triggered ++ s.controllers }

/-- Run a trace of session events. -/
def srun (s : SessionState) (tr : List SEvent) : SessionState := tr.foldl sstep s

/-- A fresh session with the given top-K configuration. -/
def sinit (topK : ℕ) (earlyAbort : Bool) : SessionState :=
  { aborted := false, seen := [], controllers := [], triggered := [],
    reachedTopK := 0, delivered := [], topK := topK, earlyAbort := earlyAbort }

/-- A sample result item carried by the witness traces. -/
def itemA1 : VItem :=
  { source_code := "a"
    vod_id := "1"
    source_name := "n"
    api_url := none }

/-- A session state whose external signal has already fired, with one
controller still registered. -/
def abortedSession : SessionState :=
  { aborted := true
    seen := []
    controllers := ["a"]
    triggered := []
    reachedTopK := 0
    delivered := []
    topK := 4
    earlyAbort := true }

/-- The identity `("a_b", "c")`: source code `a_b`, item id `c`. -/
def itemUnderscoreLeft : VItem :=
  { source_code := "a_b"
    vod_id := "c"
    source_name := "x"
    api_url := none }

/-- The distinct identity `("a", "b_c")`: source code `a`, item id `b_c`. -/
def itemUnderscoreRight : VItem :=
  { source_code := "a"
    vod_id := "b_c"
    source_name := "y"
    api_url := none }

/-- A result item from source s1. -/
def itemFromS1 : VItem :=
  { source_code := "s1"
    vod_id := "1"
    source_name := "n"
    api_url := none }

/-- A result item from source s2. -/
def itemFromS2 : VItem :=
  { source_code := "s2"
    vod_id := "1"
    source_name := "n"
    api_url := none }

/-- A session just before the second contribution: five sources were all
admitted (concurrency ≥ 5), s1 has contributed one item (its controller
already removed), s2 .. s5 still hold registered controllers, top-K is 2. -/
def fiveInFlightSession : SessionState :=
  { aborted := false
    seen := ["s1_1"]
    controllers := ["s2", "s3", "s4", "s5"]
    triggered := []
    reachedTopK := 1
    delivered := [[itemFromS1]]
    topK := 2
    earlyAbort := true }

theorem drain_running_le (lim : ℕ) : ∀ (r : ℕ) (q st : List ℕ), r ≤ lim →
    (drain lim r q st).1 ≤ lim := by
  intro r q
  induction q generalizing r with
  | nil => intro st h; simpa [drain] using h
  | cons t rest ih =>
    intro st h
    by_cases hr : r < lim
    · simpa [drain, hr] using ih (r + 1) (st ++ [t]) hr
    · simpa [drain, hr] using h

theorem drain_append (lim : ℕ) : ∀ (r : ℕ) (q st : List ℕ),
    (drain lim r q st).2.2 ++ (drain lim r q st).2.1 = st ++ q := by
  intro r q
  induction q generalizing r with
  | nil => intro st; simp [drain]
  | cons t rest ih =>
    intro st
    by_cases hr : r < lim
    · simpa [drain, hr] using ih (r + 1) (st ++ [t])
    · simp [drain, hr]

theorem drain_queue_empty (lim : ℕ) : ∀ (r : ℕ) (q st : List ℕ),
    (drain lim r q st).1 < lim → (drain lim r q st).2.1 = [] := by
  intro r q
  induction q generalizing r with
  | nil => intro st _; simp [drain]
  | cons t rest ih =>
    intro st h
    by_cases hr : r < lim
    · simpa [drain, hr] using ih (r + 1) (st ++ [t]) (by simpa [drain, hr] using h)
    · rw [drain] at h
      simp only [if_neg hr] at h
      exact absurd h hr

theorem drain_count (lim : ℕ) : ∀ (r : ℕ) (q st : List ℕ),
    (drain lim r q st).1 + st.length = r + ((drain lim r q st).2.2).length := by
  intro r q
  induction q generalizing r with
  | nil => intro st; simp [drain]
  | cons t rest ih =>
    intro st
    by_cases hr : r < lim
    · have := ih (r + 1) (st ++ [t])
      rw [drain]
      simp only [if_pos hr]
      simp only [List.length_append, List.length_cons, List.length_nil] at this ⊢
      omega
    · simp [drain, hr]

theorem drain_started_extend (lim : ℕ) : ∀ (r : ℕ) (q st : List ℕ),
    ∃ l, (drain lim r q st).2.2 = st ++ l := by
  intro r q
  induction q generalizing r with
  | nil => intro st; exact ⟨[], by simp [drain]⟩
  | cons t rest ih =>
    intro st
    by_cases hr : r < lim
    · obtain ⟨l, hl⟩ := ih (r + 1) (st ++ [t])
      rw [drain]
      simp only [if_pos hr]
      exact ⟨t :: l, by simpa using hl⟩
    · exact ⟨[], by simp [drain, hr]⟩

theorem limInv_init (limit : ℕ) : LimInv (limInit limit) := by
  constructor <;> simp [limInit, settledIds]

theorem length_lt_of_nodup_subset {S L : List ℕ} (hS : S.Nodup) (hL : L.Nodup)
    (hsub : ∀ x ∈ S, x ∈ L) {t : ℕ} (htL : t ∈ L) (htS : t ∉ S) :
    S.length < L.length := by
  have h1 : S.toFinset.card = S.length := List.toFinset_card_of_nodup hS
  have h2 : L.toFinset.card = L.length := List.toFinset_card_of_nodup hL
  have hsub' : S.toFinset ⊆ L.toFinset := by
    intro x hx
    simp only [List.mem_toFinset] at hx ⊢
    exact hsub x hx
  have hss : S.toFinset ⊂ L.toFinset := by
    refine ⟨hsub', fun hsup => htS ?_⟩
    have : t ∈ S.toFinset := hsup (by simpa [List.mem_toFinset] using htL)
    simpa [List.mem_toFinset] using this
  have := Finset.card_lt_card hss
  omega

theorem limInv_submit {s : LimState} (hs : LimInv s) {t : ℕ}
    (ht : t ∉ s.submitted) : LimInv (limStep s (.submit t)) := by
  have hle := drain_running_le s.limit s.running (s.queue ++ [t]) s.started hs.run_le
  have happ := drain_append s.limit s.running (s.queue ++ [t]) s.started
  have hemp := drain_queue_empty s.limit s.running (s.queue ++ [t]) s.started
  have hcnt := drain_count s.limit s.running (s.queue ++ [t]) s.started
  obtain ⟨l, hl⟩ := drain_started_extend s.limit s.running (s.queue ++ [t]) s.started
  constructor
  · simpa [limStep] using hle
  · show (drain _ _ _ _).2.2 ++ (drain _ _ _ _).2.1 = s.submitted ++ [t]
    rw [happ, ← hs.fifo, List.append_assoc]
  · simpa [limStep] using hemp
  · show (drain _ _ _ _).1 + (s.settled.length) = ((drain _ _ _ _).2.2).length
    have := hs.count
    omega
  · show (s.submitted ++ [t]).Nodup
    simp [List.nodup_append, hs.sub_nodup, ht]
  · intro u hu
    show u ∈ (drain _ _ _ _).2.2
    rw [hl]
    exact List.mem_append_left _ (hs.settled_sub u hu)
  · exact hs.settled_nodup

theorem limInv_finish {s : LimState} (hs : LimInv s) {t : ℕ} (ok : Bool)
    (ht : t ∈ s.started) (hts : t ∉ settledIds s) :
    LimInv (limStep s (.finish t ok)) := by
  have hnodup_st : s.started.Nodup := by
    have : (s.started ++ s.queue).Nodup := hs.fifo ▸ hs.sub_nodup
    exact this.of_append_left
  have hlen : (settledIds s).length < s.started.length :=
    length_lt_of_nodup_subset hs.settled_nodup hnodup_st hs.settled_sub ht hts
  have hrun1 : 1 ≤ s.running := by
    have := hs.count
    have : s.settled.length = (settledIds s).length := by simp [settledIds]
    omega
  have hle := drain_running_le s.limit (s.running - 1) s.queue s.started
    (le_trans (Nat.sub_le _ _) hs.run_le)
  have happ := drain_append s.limit (s.running - 1) s.queue s.started
  have hemp := drain_queue_empty s.limit (s.running - 1) s.queue s.started
  have hcnt := drain_count s.limit (s.running - 1) s.queue s.started
  obtain ⟨l, hl⟩ := drain_started_extend s.limit (s.running - 1) s.queue s.started
  constructor
  · simpa [limStep] using hle
  · show (drain _ _ _ _).2.2 ++ (drain _ _ _ _).2.1 = s.submitted
    rw [happ, hs.fifo]
  · simpa [limStep] using hemp
  · show (drain _ _ _ _).1 + (s.settled ++ [(t, ok)]).length = ((drain _ _ _ _).2.2).length
    have := hs.count
    simp only [List.length_append, List.length_cons, List.length_nil]
    omega
  · exact hs.sub_nodup
  · intro u hu
    have hsid : settledIds (limStep s (.finish t ok)) = settledIds s ++ [t] := by
      show ((s.settled ++ [(t, ok)]).map Prod.fst) = _
      simp [settledIds]
    rw [hsid] at hu
    show u ∈ (drain _ _ _ _).2.2
    rw [hl]
    rcases List.mem_append.mp hu with h | h
    · exact List.mem_append_left _ (hs.settled_sub u h)
    · simp only [List.mem_singleton] at h
      exact List.mem_append_left _ (h ▸ ht)
  · show ((s.settled ++ [(t, ok)]).map Prod.fst).Nodup
    rw [List.map_append]
    simp only [List.map_cons, List.map_nil]
    apply List.Nodup.append hs.settled_nodup (List.nodup_singleton t)
    intro x hx hx'
    simp only [List.mem_singleton] at hx'
    exact hts (hx' ▸ hx)

theorem limRun_limit : ∀ (tr : List LEvent) (s : LimState),
    (limRun s tr).limit = s.limit := by
  intro tr
  induction tr with
  | nil => intro s; rfl
  | cons e rest ih =>
    intro s
    have h1 : (limStep s e).limit = s.limit := by cases e <;> rfl
    show (limRun (limStep s e) rest).limit = s.limit
    rw [ih, h1]

theorem limInv_run : ∀ (tr : List LEvent) (s : LimState),
    LimInv s → limWF s tr = true → LimInv (limRun s tr) := by
  intro tr
  induction tr with
  | nil => intro s hs _; exact hs
  | cons e rest ih =>
    intro s hs hwf
    cases e with
    | submit t =>
      simp only [limWF, Bool.and_eq_true, Bool.not_eq_true', decide_eq_false_iff_not] at hwf
      exact ih _ (limInv_submit hs hwf.1) hwf.2
    | finish t ok =>
      simp only [limWF, Bool.and_eq_true, Bool.not_eq_true', decide_eq_true_eq,
        decide_eq_false_iff_not] at hwf
      exact ih _ (limInv_finish hs ok hwf.1.1 hwf.1.2) hwf.2

/-- C3: from a fresh limiter, along every well-formed scheduler trace:
(i) at most `limit` distinct tasks are started-but-unsettled at any time;
(ii) tasks are started in FIFO submission order — the start order followed
by the residual queue is exactly the submission order; (iii) a task
finishing in failure leaves the gate (counter, queue, start order,
submissions) exactly as a success would and does not touch any other
task's recorded outcome; (iv) given `limit ≥ 1`, once every started task
has settled the queue is empty and every submitted task has settled. -/
theorem limiter_bound_fifo_isolation_no_starvation
    (limit : ℕ) (tr : List LEvent) (hwf : limWF (limInit limit) tr = true) :
    ((limRun (limInit limit) tr).started.toFinset \
        (settledIds (limRun (limInit limit) tr)).toFinset).card ≤ limit
    ∧ (limRun (limInit limit) tr).started ++ (limRun (limInit limit) tr).queue
        = (limRun (limInit limit) tr).submitted
    ∧ (∀ (s : LimState) (t : ℕ),
        (limStep s (.finish t false)).running = (limStep s (.finish t true)).running
        ∧ (limStep s (.finish t false)).queue = (limStep s (.finish t true)).queue
        ∧ (limStep s (.finish t false)).started = (limStep s (.finish t true)).started
        ∧ (limStep s (.finish t false)).submitted = (limStep s (.finish t true)).submitted
        ∧ ∀ (u : ℕ) (ok : Bool), u ≠ t →
            ((u, ok) ∈ (limStep s (.finish t false)).settled ↔ (u, ok) ∈ s.settled))
    ∧ (1 ≤ limit → (limRun (limInit limit) tr).settled.length
          = (limRun (limInit limit) tr).started.length →
        (limRun (limInit limit) tr).queue = []
        ∧ ∀ t ∈ (limRun (limInit limit) tr).submitted,
            t ∈ settledIds (limRun (limInit limit) tr)) := by
  have hinv : LimInv (limRun (limInit limit) tr) :=
    limInv_run tr (limInit limit) (limInv_init limit) hwf
  set s := limRun (limInit limit) tr with hsdef
  have hlimit : s.limit = limit := limRun_limit tr (limInit limit)
  have hnodup_st : s.started.Nodup := by
    have : (s.started ++ s.queue).Nodup := hinv.fifo ▸ hinv.sub_nodup
    exact this.of_append_left
  have hsubF : (settledIds s).toFinset ⊆ s.started.toFinset := by
    intro x hx
    simp only [List.mem_toFinset] at hx ⊢
    exact hinv.settled_sub x hx
  have hcard1 : s.started.toFinset.card = s.started.length :=
    List.toFinset_card_of_nodup hnodup_st
  have hcard2 : (settledIds s).toFinset.card = (settledIds s).length :=
    List.toFinset_card_of_nodup hinv.settled_nodup
  have hlen : (settledIds s).length = s.settled.length := by simp [settledIds]
  refine ⟨?_, hinv.fifo, ?_, ?_⟩
  · rw [Finset.card_sdiff hsubF]
    have := hinv.count
    have := hinv.run_le
    omega
  · intro s' t
    refine ⟨rfl, rfl, rfl, rfl, ?_⟩
    intro u ok hu
    show (u, ok) ∈ s'.settled ++ [(t, false)] ↔ (u, ok) ∈ s'.settled
    simp only [List.mem_append, List.mem_singleton]
    constructor
    · rintro (h | h)
      · exact h
      · rw [Prod.ext_iff] at h
        exact absurd h.1 hu
    · exact fun h => Or.inl h
  · intro hlim hall
    have hrun0 : s.running = 0 := by
      have := hinv.count
      omega
    have hq : s.queue = [] := hinv.drained (by omega)
    refine ⟨hq, ?_⟩
    have hsub : s.submitted = s.started := by
      rw [← hinv.fifo, hq, List.append_nil]
    have hFeq : (settledIds s).toFinset = s.started.toFinset := by
      apply Finset.eq_of_subset_of_card_le hsubF
      omega
    intro t htmem
    rw [hsub] at htmem
    have : t ∈ s.started.toFinset := by simpa [List.mem_toFinset] using htmem
    rw [← hFeq] at this
    simpa [List.mem_toFinset] using this

/-- C3 witness: the limiter theorem applied to a concrete limit-2 gate and
a six-event trace in which three tasks are submitted, the second fails
and all settle. -/
theorem limiter_bound_fifo_isolation_no_starvation_witness :
    limWF (limInit 2) [.submit 0, .submit 1, .submit 2,
        .finish 0 true, .finish 1 false, .finish 2 true] = true
    ∧ (((limRun (limInit 2) [.submit 0, .submit 1, .submit 2,
        .finish 0 true, .finish 1 false, .finish 2 true]).started.toFinset \
        (settledIds (limRun (limInit 2) [.submit 0, .submit 1, .submit 2,
        .finish 0 true, .finish 1 false, .finish 2 true])).toFinset).card ≤ 2
    ∧ (limRun (limInit 2) [.submit 0, .submit 1, .submit 2,
        .finish 0 true, .finish 1 false, .finish 2 true]).started
        ++ (limRun (limInit 2) [.submit 0, .submit 1, .submit 2,
        .finish 0 true, .finish 1 false, .finish 2 true]).queue
        = (limRun (limInit 2) [.submit 0, .submit 1, .submit 2,
        .finish 0 true, .finish 1 false, .finish 2 true]).submitted
    ∧ (∀ (s : LimState) (t : ℕ),
        (limStep s (.finish t false)).running = (limStep s (.finish t true)).running
        ∧ (limStep s (.finish t false)).queue = (limStep s (.finish t true)).queue
        ∧ (limStep s (.finish t false)).started = (limStep s (.finish t true)).started
        ∧ (limStep s (.finish t false)).submitted = (limStep s (.finish t true)).submitted
        ∧ ∀ (u : ℕ) (ok : Bool), u ≠ t →
            ((u, ok) ∈ (limStep s (.finish t false)).settled ↔ (u, ok) ∈ s.settled))
    ∧ (1 ≤ 2 → (limRun (limInit 2) [.submit 0, .submit 1, .submit 2,
        .finish 0 true, .finish 1 false, .finish 2 true]).settled.length
          = (limRun (limInit 2) [.submit 0, .submit 1, .submit 2,
        .finish 0 true, .finish 1 false, .finish 2 true]).started.length →
        (limRun (limInit 2) [.submit 0, .submit 1, .submit 2,
        .finish 0 true, .finish 1 false, .finish 2 true]).queue = []
        ∧ ∀ t ∈ (limRun (limInit 2) [.submit 0, .submit 1, .submit 2,
        .finish 0 true, .finish 1 false, .finish 2 true]).submitted,
            t ∈ settledIds (limRun (limInit 2) [.submit 0, .submit 1, .submit 2,
        .finish 0 true, .finish 1 false, .finish 2 true]))) :=
  ⟨by decide,
   limiter_bound_fifo_isolation_no_starvation 2
     [.submit 0, .submit 1, .submit 2, .finish 0 true, .finish 1 false, .finish 2 true]
     (by decide)⟩

theorem alookup_eq_none {β : Type} (a : String) :
    ∀ l : List (String × β), alookup a l = none ↔ ∀ b, (a, b) ∉ l := by
  intro l
  induction l with
  | nil => simp [alookup]
  | cons p rest ih =>
    by_cases hp : p.1 = a
    · simp only [alookup, if_pos hp]
      constructor
      · intro h; cases h
      · intro h
        exact absurd (List.mem_cons_self p rest) (by simpa [← hp] using h p.2)
    · simp only [alookup, if_neg hp, ih]
      constructor
      · intro h b hb
        rcases List.mem_cons.mp hb with h1 | h1
        · exact hp (by rw [← h1])
        · exact h b h1
      · intro h b hb
        exact h b (List.mem_cons_of_mem p hb)

theorem alookup_append_left {β : Type} (a : String) (l₁ l₂ : List (String × β))
    (b : β) (h : alookup a l₁ = some b) : alookup a (l₁ ++ l₂) = some b := by
  induction l₁ with
  | nil => simp [alookup] at h
  | cons p rest ih =>
    by_cases hp : p.1 = a
    · simp only [alookup, if_pos hp] at h ⊢
      exact h
    · simp only [alookup, if_neg hp] at h ⊢
      exact ih h

theorem alookup_append_right {β : Type} (a : String) (l₁ l₂ : List (String × β))
    (h : alookup a l₁ = none) : alookup a (l₁ ++ l₂) = alookup a l₂ := by
  induction l₁ with
  | nil => simp
  | cons p rest ih =>
    by_cases hp : p.1 = a
    · simp only [alookup, if_pos hp] at h
      cases h
    · simp only [alookup, if_neg hp] at h
      simp only [List.cons_append, alookup, if_neg hp]
      exact ih h

theorem alookup_mem {β : Type} (a : String) :
    ∀ (l : List (String × β)) (b : β), alookup a l = some b → (a, b) ∈ l := by
  intro l
  induction l with
  | nil => intro b h; simp [alookup] at h
  | cons p rest ih =>
    intro b h
    by_cases hp : p.1 = a
    · simp only [alookup, if_pos hp] at h
      cases h
      have : (a, p.2) = p := by
        rw [← hp]
      rw [this]
      exact List.mem_cons_self p rest
    · simp only [alookup, if_neg hp] at h
      exact List.mem_cons_of_mem p (ih b h)

theorem alookup_filter_self {β : Type} (k : String) (l : List (String × β)) :
    alookup k (l.filter (fun p => decide (p.1 ≠ k))) = none := by
  rw [alookup_eq_none]
  intro b hb
  have := (List.mem_filter.mp hb).2
  simp at this

theorem execKeyOf_append_left (l₁ l₂ : List (ℕ × String)) (e : ℕ) (k : String)
    (h : execKeyOf l₁ e = some k) : execKeyOf (l₁ ++ l₂) e = some k := by
  induction l₁ with
  | nil => simp [execKeyOf] at h
  | cons p rest ih =>
    by_cases hp : p.1 = e
    · simp only [execKeyOf, if_pos hp] at h ⊢
      exact h
    · simp only [execKeyOf, if_neg hp] at h ⊢
      exact ih h

theorem execKeyOf_append_right (l₁ l₂ : List (ℕ × String)) (e : ℕ)
    (h : execKeyOf l₁ e = none) : execKeyOf (l₁ ++ l₂) e = execKeyOf l₂ e := by
  induction l₁ with
  | nil => simp
  | cons p rest ih =>
    by_cases hp : p.1 = e
    · simp only [execKeyOf, if_pos hp] at h
      cases h
    · simp only [execKeyOf, if_neg hp] at h
      simp only [List.cons_append, execKeyOf, if_neg hp]
      exact ih h

theorem execKeyOf_eq_none_of_lt (l : List (ℕ × String)) (n : ℕ)
    (h : ∀ q ∈ l, q.1 < n) : execKeyOf l n = none := by
  induction l with
  | nil => rfl
  | cons p rest ih =>
    have hp : p.1 ≠ n := Nat.ne_of_lt (h p (List.mem_cons_self p rest))
    simp only [execKeyOf, if_neg hp]
    exact ih fun q hq => h q (List.mem_cons_of_mem p hq)

theorem mem_unique_of_keys_nodup {l : List (String × ℕ)}
    (h : (l.map Prod.fst).Nodup) {k : String} {e₁ e₂ : ℕ}
    (h1 : (k, e₁) ∈ l) (h2 : (k, e₂) ∈ l) : e₁ = e₂ := by
  induction l with
  | nil => cases h1
  | cons p rest ih =>
    simp only [List.map_cons, List.nodup_cons] at h
    rcases List.mem_cons.mp h1 with ha | ha <;> rcases List.mem_cons.mp h2 with hb | hb
    · rw [← ha] at hb
      exact congrArg Prod.snd hb.symm
    · exfalso
      exact h.1 (by simpa [← ha] using List.mem_map_of_mem Prod.fst hb)
    · exfalso
      exact h.1 (by simpa [← hb] using List.mem_map_of_mem Prod.fst ha)
    · exact ih h.2 ha hb

theorem key_not_mem_of_alookup_none {β : Type} {k : String} {l : List (String × β)}
    (h : alookup k l = none) : k ∉ l.map Prod.fst := by
  intro hmem
  rcases List.mem_map.mp hmem with ⟨p, hp, hfst⟩
  have : (k, p.2) ∈ l := by
    have : p = (k, p.2) := by
      rw [← hfst]
    rw [← this]
    exact hp
  exact (alookup_eq_none k l).mp h p.2 this

theorem dinv_init : DInv dinit := by
  constructor <;> simp [dinit]

theorem dinv_step {s : DedupState} (hs : DInv s) (e : DEvent) : DInv (dstep s e) := by
  cases e with
  | call c k =>
    cases halk : alookup k s.inflight with
    | some e0 =>
      refine ⟨?_, ?_, ?_, ?_⟩ <;> simp only [dstep, halk] <;>
        first
          | exact hs.keys_nodup
          | exact hs.execs_lt
          | exact hs.exec_key
          | exact hs.ek_lt
    | none =>
      have hknotin : k ∉ s.inflight.map Prod.fst := key_not_mem_of_alookup_none halk
      refine ⟨?_, ?_, ?_, ?_⟩ <;> simp only [dstep, halk]
      · rw [List.map_append]
        simp only [List.map_cons, List.map_nil]
        apply List.Nodup.append hs.keys_nodup (List.nodup_singleton k)
        intro x hx hx'
        simp only [List.mem_singleton] at hx'
        exact hknotin (hx' ▸ hx)
      · intro p hp
        rcases List.mem_append.mp hp with h1 | h1
        · exact Nat.lt_succ_of_lt (hs.execs_lt p h1)
        · simp only [List.mem_singleton] at h1
          rw [h1]
          exact Nat.lt_succ_self _
      · intro p hp
        rcases List.mem_append.mp hp with h1 | h1
        · exact execKeyOf_append_left _ _ _ _ (hs.exec_key p h1)
        · simp only [List.mem_singleton] at h1
          rw [h1]
          rw [execKeyOf_append_right _ _ _ (execKeyOf_eq_none_of_lt _ _ hs.ek_lt)]
          simp [execKeyOf]
      · intro q hq
        rcases List.mem_append.mp hq with h1 | h1
        · exact Nat.lt_succ_of_lt (hs.ek_lt q h1)
        · simp only [List.mem_singleton] at h1
          rw [h1]
          exact Nat.lt_succ_self _
  | settle e0 ok =>
    cases hek : execKeyOf s.execKeys e0 with
    | some k =>
      refine ⟨?_, ?_, ?_, ?_⟩ <;> simp only [dstep, hek]
      · exact ((List.filter_sublist s.inflight).map Prod.fst).nodup hs.keys_nodup
      · exact fun p hp => hs.execs_lt p (List.mem_of_mem_filter hp)
      · exact fun p hp => hs.exec_key p (List.mem_of_mem_filter hp)
      · exact hs.ek_lt
    | none =>
      refine ⟨?_, ?_, ?_, ?_⟩ <;> simp only [dstep, hek] <;>
        first
          | exact hs.keys_nodup
          | exact hs.execs_lt
          | exact hs.exec_key
          | exact hs.ek_lt

theorem dinv_run : ∀ (tr : List DEvent) (s : DedupState), DInv s → DInv (drun s tr) := by
  intro tr
  induction tr with
  | nil => intro s hs; exact hs
  | cons e rest ih => intro s hs; exact ih (dstep s e) (dinv_step hs e)

/-- C2: along every trace from a fresh service: (a) a key has at most one
outstanding upstream execution at any time; (b) a call arriving while its
key is pending issues no new factory execution and attaches the caller to
the pending execution — two sharing callers are recorded against the very
same execution, hence observe its one settled outcome; (c) settlement of a
pending execution, success or failure alike, removes its key's entry; and
(d) a call finding no entry issues exactly one fresh execution and
registers it under the key. -/
theorem dedup_single_inflight_per_key (tr : List DEvent) :
    (∀ (k : String) (e₁ e₂ : ℕ), (k, e₁) ∈ (drun dinit tr).inflight →
      (k, e₂) ∈ (drun dinit tr).inflight → e₁ = e₂)
    ∧ (∀ (c₁ c₂ : ℕ) (k : String) (e : ℕ),
        alookup k (drun dinit tr).inflight = some e →
        (dstep (drun dinit tr) (.call c₁ k)).nextExec = (drun dinit tr).nextExec
        ∧ (drun (drun dinit tr) [.call c₁ k, .call c₂ k]).nextExec
            = (drun dinit tr).nextExec
        ∧ (drun (drun dinit tr) [.call c₁ k, .call c₂ k]).assignments
            = (drun dinit tr).assignments ++ [(c₁, e), (c₂, e)])
    ∧ (∀ (e : ℕ) (k : String) (ok : Bool), (k, e) ∈ (drun dinit tr).inflight →
        alookup k (dstep (drun dinit tr) (.settle e ok)).inflight = none)
    ∧ (∀ (c : ℕ) (k : String), alookup k (drun dinit tr).inflight = none →
        (dstep (drun dinit tr) (.call c k)).nextExec = (drun dinit tr).nextExec + 1
        ∧ alookup k (dstep (drun dinit tr) (.call c k)).inflight
            = some (drun dinit tr).nextExec) := by
  have hinv : DInv (drun dinit tr) := dinv_run tr dinit dinv_init
  set s := drun dinit tr with hsdef
  refine ⟨?_, ?_, ?_, ?_⟩
  · intro k e₁ e₂ h1 h2
    exact mem_unique_of_keys_nodup hinv.keys_nodup h1 h2
  · intro c₁ c₂ k e halk
    have hstep1 : dstep s (.call c₁ k)
        = { s with assignments := s.assignments ++ [(c₁, e)] } := by
      simp only [dstep, halk]
    have halk2 : alookup k ({ s with
        assignments := s.assignments ++ [(c₁, e)] } : DedupState).inflight = some e := halk
    have hstep2 : dstep ({ s with assignments := s.assignments ++ [(c₁, e)] } : DedupState)
          (.call c₂ k)
        = { s with assignments := (s.assignments ++ [(c₁, e)]) ++ [(c₂, e)] } := by
      simp only [dstep, halk2]
    refine ⟨by rw [hstep1], ?_, ?_⟩
    · show (dstep (dstep s (.call c₁ k)) (.call c₂ k)).nextExec = s.nextExec
      rw [hstep1, hstep2]
    · show (dstep (dstep s (.call c₁ k)) (.call c₂ k)).assignments
        = s.assignments ++ [(c₁, e), (c₂, e)]
      rw [hstep1, hstep2]
      simp
  · intro e k ok hmem
    have hek : execKeyOf s.execKeys e = some k := hinv.exec_key (k, e) hmem
    simp only [dstep, hek]
    exact alookup_filter_self k s.inflight
  · intro c k halk
    refine ⟨by simp only [dstep, halk], ?_⟩
    simp only [dstep, halk]
    rw [alookup_append_right _ _ _ halk]
    simp [alookup]

/-- C2 witness: caller 0 opens key "u" (execution 0); callers 1 and 2
arrive while it is pending and are both attached to execution 0 with no
new upstream call. -/
theorem dedup_single_inflight_per_key_witness :
    alookup "u" (drun dinit [DEvent.call 0 "u"]).inflight = some 0
    ∧ (drun (drun dinit [DEvent.call 0 "u"])
        [DEvent.call 1 "u", DEvent.call 2 "u"]).nextExec
        = (drun dinit [DEvent.call 0 "u"]).nextExec
    ∧ (drun (drun dinit [DEvent.call 0 "u"])
        [DEvent.call 1 "u", DEvent.call 2 "u"]).assignments
        = (drun dinit [DEvent.call 0 "u"]).assignments ++ [(1, 0), (2, 0)] :=
  ⟨by decide,
   ((dedup_single_inflight_per_key [DEvent.call 0 "u"]).2.1 1 2 "u" 0 (by decide)).2.1,
   ((dedup_single_inflight_per_key [DEvent.call 0 "u"]).2.1 1 2 "u" 0 (by decide)).2.2⟩

theorem updateHealth_failure_fact (h : HealthMap) (src : String) (lat : ℚ) (now : ℕ) :
    ∃ r, updateHealth h src false lat now src = some r ∧ r.lastLatencyMs = lat
      ∧ r.failureCount
          = (match h src with | some r0 => r0.failureCount + 1 | none => 1) := by
  cases hh : h src with
  | none =>
    refine ⟨{ avgLatencyMs := lat * (8/10) + lat * (2/10), successCount := 0,
              failureCount := 1, lastLatencyMs := lat, lastUpdatedAt := now },
      ?_, rfl, by simp [hh]⟩
    simp [updateHealth, hh]
  | some r0 =>
    refine ⟨{ avgLatencyMs := r0.avgLatencyMs * (8/10) + lat * (2/10),
              successCount := r0.successCount, failureCount := r0.failureCount + 1,
              lastLatencyMs := lat, lastUpdatedAt := now },
      ?_, rfl, by simp [hh]⟩
    simp [updateHealth, hh]

/-- C4: whenever the upstream call fails — transport rejection (network
error or timeout), non-2xx status (`ok = false`), or a response missing
the `list` array — `exec` records a failure with the elapsed latency into
the health store (failure count bumped, `lastLatencyMs` set to the elapsed
time) and re-raises an error to its caller. -/
theorem execSearch_failure_records_and_reraises
    (source : String) (customApi : Option String) (sourceName : String)
    (fetched : FetchOutcome) (elapsed : ℚ) (now : ℕ) (h : HealthMap)
    (hfail : (∃ name, fetched = .fetchError name)
      ∨ (∃ st lf, fetched = .response false st lf)
      ∨ (∃ ok st, fetched = .response ok st none)) :
    (∃ msg, (execSearch source customApi sourceName fetched elapsed now h).1 = .error msg)
    ∧ (execSearch source customApi sourceName fetched elapsed now h).2
        = updateHealth h source false elapsed now
    ∧ ∃ r, (execSearch source customApi sourceName fetched elapsed now h).2 source = some r
        ∧ r.lastLatencyMs = elapsed
        ∧ r.failureCount
            = (match h source with | some r0 => r0.failureCount + 1 | none => 1) := by
  have hmain :
      (∃ msg, (execSearch source customApi sourceName fetched elapsed now h).1 = .error msg)
      ∧ (execSearch source customApi sourceName fetched elapsed now h).2
          = updateHealth h source false elapsed now := by
    rcases hfail with ⟨name, hf⟩ | ⟨st, lf, hf⟩ | ⟨ok, st, hf⟩
    · subst hf
      exact ⟨⟨name, rfl⟩, rfl⟩
    · subst hf
      exact ⟨⟨_, rfl⟩, rfl⟩
    · subst hf
      cases ok with
      | false => exact ⟨⟨_, rfl⟩, rfl⟩
      | true => exact ⟨⟨_, rfl⟩, rfl⟩
  refine ⟨hmain.1, hmain.2, ?_⟩
  rw [hmain.2]
  exact updateHealth_failure_fact h source elapsed now

/-- C4 witness: a 500-status response on a fresh health store; the failure
is recorded with the elapsed latency 5 and the error re-raised. -/
theorem execSearch_failure_records_and_reraises_witness :
    (∃ msg, (execSearch "src" none "名" (.response false 500 none) 5 0 emptyHealth).1
        = Except.error msg)
    ∧ (execSearch "src" none "名" (.response false 500 none) 5 0 emptyHealth).2
        = updateHealth emptyHealth "src" false 5 0
    ∧ ∃ r, (execSearch "src" none "名" (.response false 500 none) 5 0 emptyHealth).2 "src"
        = some r ∧ r.lastLatencyMs = 5
        ∧ r.failureCount
            = (match emptyHealth "src" with | some r0 => r0.failureCount + 1 | none => 1) :=
  execSearch_failure_records_and_reraises "src" none "名" (.response false 500 none) 5 0
    emptyHealth (Or.inr (Or.inl ⟨500, none, rfl⟩))

theorem earliestRejection_resolved :
    ∀ (ps : List MProm), (∀ p ∈ ps, p.rejectedWith = none) →
      earliestRejection ps = none := by
  have haux : ∀ (ps : List MProm) (acc : Option MProm),
      (∀ p ∈ ps, p.rejectedWith = none) →
      ps.foldl
        (fun acc p =>
          if p.rejectedWith = none then acc
          else match acc with
            | none => some p
            | some q => if p.time < q.time then some p else some q)
        acc = acc := by
    intro ps
    induction ps with
    | nil => intro acc _; rfl
    | cons p rest ih =>
      intro acc hall
      have hp : p.rejectedWith = none := hall p (List.mem_cons_self p rest)
      simp only [List.foldl_cons, if_pos hp]
      exact ih acc fun q hq => hall q (List.mem_cons_of_mem p hq)
  intro ps h
  exact haux ps none h

theorem pAll_tasks (taskTimes : List ℕ) :
    pAll (taskTimes.map taskProm)
      = { time := taskTimes.foldl (fun m t => max m t) 0, rejectedWith := none } := by
  have h1 : earliestRejection (taskTimes.map taskProm) = none := by
    apply earliestRejection_resolved
    intro p hp
    rcases List.mem_map.mp hp with ⟨t, _, ht⟩
    rw [← ht]
    rfl
  rw [pAll, h1, List.foldl_map]
  rfl

/-- C1: with every scheduled per-source task resolving (task bodies catch
their fetch errors), the value `aggregatedSearch` returns settles as
follows: with no signal firing, it resolves exactly when the last task has
settled — an all-settle join, not first-success; if the external signal
fires strictly before all tasks have settled, it rejects with
`AbortError` at that moment; if it fires strictly after, the caller sees
the all-settle resolution.  Whichever of the two occurs first is what the
caller observes. -/
theorem aggregatedSearch_all_settle_abort_race (taskTimes : List ℕ) (abortAt : Option ℕ) :
    (abortAt = none →
      aggregatedJoin taskTimes abortAt
        = { time := taskTimes.foldl (fun m t => max m t) 0, rejectedWith := none })
    ∧ (∀ a, abortAt = some a →
        (a < taskTimes.foldl (fun m t => max m t) 0 →
          aggregatedJoin taskTimes abortAt
            = { time := a, rejectedWith := some "AbortError" })
        ∧ (taskTimes.foldl (fun m t => max m t) 0 < a →
          aggregatedJoin taskTimes abortAt
            = { time := taskTimes.foldl (fun m t => max m t) 0,
                rejectedWith := none })) := by
  constructor
  · intro h
    subst h
    rw [aggregatedJoin, pAll_tasks]
    rfl
  · intro a ha
    subst ha
    have hred : aggregatedJoin taskTimes (some a)
        = if a < taskTimes.foldl (fun m t => max m t) 0 then
            ({ time := a, rejectedWith := some "AbortError" } : MProm)
          else { time := taskTimes.foldl (fun m t => max m t) 0, rejectedWith := none } := by
      rw [aggregatedJoin, pAll_tasks]
      rfl
    constructor
    · intro hlt
      rw [hred, if_pos hlt]
    · intro hgt
      rw [hred, if_neg (by omega)]

/-- C1 witness: three tasks settling at times 3, 7, 5 with the signal
firing at time 6 — before the last task — so the caller observes the
`AbortError` rejection at time 6. -/
theorem aggregatedSearch_all_settle_abort_race_witness :
    aggregatedJoin [3, 7, 5] (some 6) = { time := 6, rejectedWith := some "AbortError" } :=
  (((aggregatedSearch_all_settle_abort_race [3, 7, 5] (some 6)).2 6 rfl).1 (by decide))

/-- C8 counterexample: with an empty selection and an already-aborted
signal, `aggregatedSearch` resolves `[]` — the empty-selection check runs
before the `signal.aborted` check — instead of rejecting with
`AbortError` as the claim requires of every call with a pre-aborted
signal. -/
theorem aggregatedSearch_pre_aborted_empty_selection_resolves :
    aggregatedSearchEntry [] true = .immediateResolve
    ∧ aggregatedSearchEntry [] true ≠ .immediateReject "AbortError" := by
  constructor
  · rfl
  · intro h
    cases h

/-- C8 amended: for every call with a non-empty selected-source set whose
external signal is already aborted at call time, `aggregatedSearch`
immediately rejects with a cancellation-kind (`AbortError`) failure and
issues zero upstream requests. -/
theorem aggregatedSearch_pre_aborted_rejects (selected : List String)
    (hne : selected ≠ []) :
    aggregatedSearchEntry selected true = .immediateReject "AbortError"
    ∧ entryRequestCount (aggregatedSearchEntry selected true) = 0 := by
  have hlen : ¬ selected.length = 0 := by
    intro h
    exact hne (List.eq_nil_of_length_eq_zero h)
  rw [aggregatedSearchEntry, if_neg hlen, if_pos rfl]
  exact ⟨rfl, rfl⟩

/-- C8 amended witness: one selected source, pre-aborted signal. -/
theorem aggregatedSearch_pre_aborted_rejects_witness :
    aggregatedSearchEntry ["dyttzy"] true = .immediateReject "AbortError"
    ∧ entryRequestCount (aggregatedSearchEntry ["dyttzy"] true) = 0 :=
  aggregatedSearch_pre_aborted_rejects ["dyttzy"] (by decide)

theorem sstep_aborted_frozen (s : SessionState) (e : SEvent) (h : s.aborted = true) :
    (sstep s e).delivered = s.delivered ∧ (sstep s e).aborted = true := by
  cases e with
  | taskStart src => simp [sstep, h]
  | taskDone src results => simp [sstep, h]
  | externalAbort => simp [sstep]

/-- C10: once the external signal has fired (the listener set the
`aborted` flag), no later section of the session delivers anything: every
post-fetch continuation hits the `if (aborted) return` guard before the
seen-filter and callback, so `onNewResults` is never invoked again — the
deliveries after the abort are exactly the deliveries before it. -/
theorem no_delivery_after_abort :
    (∀ (s : SessionState) (tr : List SEvent), s.aborted = true →
      (srun s tr).delivered = s.delivered)
    ∧ (∀ (s : SessionState) (tr : List SEvent),
      (srun (sstep s .externalAbort) tr).delivered = s.delivered) := by
  have hmain : ∀ (tr : List SEvent) (s : SessionState), s.aborted = true →
      (srun s tr).delivered = s.delivered := by
    intro tr
    induction tr with
    | nil => intro s _; rfl
    | cons e rest ih =>
      intro s hs
      have he := sstep_aborted_frozen s e hs
      show (srun (sstep s e) rest).delivered = s.delivered
      rw [ih (sstep s e) he.2, he.1]
  refine ⟨fun s tr => hmain tr s, fun s tr => ?_⟩
  rw [hmain tr (sstep s .externalAbort) (by rfl)]
  rfl

/-- C10 witness: a session whose signal fires first; a task continuation
then arrives with a fresh result, and nothing is delivered. -/
theorem no_delivery_after_abort_witness :
    (srun abortedSession [.taskDone "a" [itemA1]]).delivered = []
    ∧ (srun (sstep (sinit 4 true) .externalAbort)
        [.taskDone "a" [itemA1]]).delivered = (sinit 4 true).delivered :=
  ⟨no_delivery_after_abort.1 abortedSession [.taskDone "a" [itemA1]] rfl,
   no_delivery_after_abort.2 (sinit 4 true) [.taskDone "a" [itemA1]]⟩

/-- C9: the session dedup identity is the plain concatenation
`source_code ++ "_" ++ vod_id`, which is not injective on identity pairs:
the distinct identities `("a_b", "c")` and `("a", "b_c")` share the key
`"a_b_c"`, so after a session delivers the first item, the
later-arriving second item is filtered out by the `seen` set and never
delivered, despite being a distinct `(source_code, vod_id)` identity. -/
theorem dedupKey_collision_suppresses_distinct_identity :
    dedupKey itemUnderscoreLeft = dedupKey itemUnderscoreRight
    ∧ (itemUnderscoreLeft.source_code, itemUnderscoreLeft.vod_id)
        ≠ (itemUnderscoreRight.source_code, itemUnderscoreRight.vod_id)
    ∧ (srun (sinit 4 false)
        [.taskDone "s1" [itemUnderscoreLeft],
         .taskDone "s2" [itemUnderscoreRight]]).delivered
        = [[itemUnderscoreLeft]] := by
  refine ⟨by decide, by decide, by decide⟩

/-- C5 counterexample: `topKFirstBatch = 2`, `earlyAbortAfterTopK = true`,
five sources, dispatched under concurrency 3 — the most the adaptive plan
ever grants with the default `baseConcurrency = 3`, since
`netFactor ≤ 1` and `healthFactor ≤ 1` — in the schedule: s1, s2, s3
start; s1 settles with a new item (slot frees, s4 starts); s2 settles
with a new item, reaching top-K.  Sources 1 and 2 are the first to each
contribute a new unique item, yet only the registered controllers of s3
and s4 are triggered; s5 has not been started by the limiter, has no
controller, is never cancelled — refuting that the controllers of sources
3, 4 and 5 are all triggered after source 2's callback. -/
theorem topk_abort_misses_unstarted_source :
    (srun (sinit 2 true)
        [.taskStart "s1", .taskStart "s2", .taskStart "s3",
         .taskDone "s1" [itemFromS1],
         .taskStart "s4",
         .taskDone "s2" [itemFromS2]]).triggered
      = ["s3", "s4"]
    ∧ "s5" ∉ (srun (sinit 2 true)
        [.taskStart "s1", .taskStart "s2", .taskStart "s3",
         .taskDone "s1" [itemFromS1],
         .taskStart "s4",
         .taskDone "s2" [itemFromS2]]).triggered := by
  constructor
  · decide
  · decide

/-- C5 amended: when a source's continuation delivers a batch that brings
the contributing-source count to the configured top-K threshold (early
abort enabled, session not aborted), `abortRest` triggers exactly the
controllers registered at that moment — every started-but-unsettled
source, the settling source's own controller having been removed by its
`finally` — immediately after the callback fires.  Sources not yet
admitted by the concurrency limiter have no controller yet, are not
cancelled, and still run; with all five sources in flight the controllers
of sources 3, 4 and 5 are all triggered after source 2's callback. -/
theorem topk_abort_triggers_registered_controllers
    (s : SessionState) (src : String) (results : List VItem)
    (hab : s.aborted = false) (hea : s.earlyAbort = true)
    (hnew : 0 < (filterNew s.seen results).1.length)
    (htop : s.topK ≤ s.reachedTopK + 1) :
    (sstep s (.taskDone src results)).triggered
      = s.triggered ++ s.controllers.filter (fun x => decide (x ≠ src))
    ∧ (sstep s (.taskDone src results)).delivered
      = s.delivered ++ [(filterNew s.seen results).1] := by
  simp only [sstep, hab, if_false, Bool.false_eq_true]
  rw [if_pos hnew, if_pos ⟨hea, htop, trivial⟩]
  exact ⟨rfl, rfl⟩

/-- C5 amended witness: five sources all in flight (concurrency ≥ 5),
`topK = 2`; source s1 has contributed, source s2's continuation arrives
with a new item: the controllers of s3, s4 and s5 are all triggered. -/
theorem topk_abort_triggers_registered_controllers_witness :
    (sstep fiveInFlightSession (.taskDone "s2" [itemFromS2])).triggered
      = fiveInFlightSession.triggered
        ++ fiveInFlightSession.controllers.filter (fun x => decide (x ≠ "s2"))
    ∧ (sstep fiveInFlightSession (.taskDone "s2" [itemFromS2])).delivered
      = fiveInFlightSession.delivered
        ++ [(filterNew fiveInFlightSession.seen [itemFromS2]).1] :=
  topk_abort_triggers_registered_controllers fiveInFlightSession "s2" [itemFromS2]
    rfl rfl (by decide) (by decide)

/-- C6 counterexample: starting from no history, `record(ok=true, 50)` then
`record(ok=true, 40)` (strictly decreasing latencies, zero failures) leaves
the score unchanged — `latencyScore = 1/max(100, avg)` is pinned at `1/100`
once the average latency is at most 100 — so the score does not strictly
increase after each application. -/
theorem getSourceScore_not_strictly_increasing :
    getSourceScore (updateHealth (updateHealth emptyHealth "s" true 50 0) "s" true 40 1) "s"
      = getSourceScore (updateHealth emptyHealth "s" true 50 0) "s"
    ∧ (updateHealth emptyHealth "s" true 50 0) "s"
      = some { avgLatencyMs := 50, successCount := 1, failureCount := 0,
               lastLatencyMs := 50, lastUpdatedAt := 0 } := by
  have h1 : (updateHealth emptyHealth "s" true 50 0) "s"
      = some { avgLatencyMs := 50, successCount := 1, failureCount := 0,
               lastLatencyMs := 50, lastUpdatedAt := 0 } := by
    simp only [updateHealth, emptyHealth, Option.getD, if_pos rfl, if_true]
    norm_num
  have h2 : (updateHealth (updateHealth emptyHealth "s" true 50 0) "s" true 40 1) "s"
      = some { avgLatencyMs := 47, successCount := 2, failureCount := 0,
               lastLatencyMs := 40, lastUpdatedAt := 1 } := by
    simp only [updateHealth, emptyHealth, Option.getD, if_pos rfl, if_true]
    norm_num
  refine ⟨?_, h1⟩
  simp only [getSourceScore, h1, h2]
  norm_num [max_def]

/-- C6 amended: `getSourceScore` is 0 for a source with no record, and one
application of `updateHealth(ok := true)` with a smaller latency strictly
increases the score of a failure-free source provided both the current
average latency and the new latency are above the 100 ms floor of
`latencyScore = 1/max(100, avgLatencyMs)`; at or below that floor the
latency score is pinned and the score stays constant. -/
theorem getSourceScore_zero_unknown_and_increase_above_floor
    (h : HealthMap) (src : String) (r : HealthRec) (lat : ℚ) (now : ℕ)
    (hrec : h src = some r) (hfail : r.failureCount = 0)
    (hsucc : 0 < r.successCount) (havg : 100 < r.avgLatencyMs)
    (hlat1 : 100 < lat) (hlat2 : lat < r.avgLatencyMs) :
    getSourceScore emptyHealth src = 0 ∧
    getSourceScore h src < getSourceScore (updateHealth h src true lat now) src := by
  refine ⟨rfl, ?_⟩
  have hs0 : (r.successCount : ℚ) ≠ 0 := by
    exact_mod_cast Nat.pos_iff_ne_zero.mp hsucc
  have havg' : (100 : ℚ) < r.avgLatencyMs * (7/10) + lat * (3/10) := by nlinarith
  have hlt : r.avgLatencyMs * (7/10) + lat * (3/10) < r.avgLatencyMs := by nlinarith
  have hupd : (updateHealth h src true lat now) src = some
      { avgLatencyMs := r.avgLatencyMs * (7/10) + lat * (3/10)
        successCount := r.successCount + 1
        failureCount := r.failureCount
        lastLatencyMs := lat
        lastUpdatedAt := now } := by
    simp [updateHealth, hrec]
  simp only [getSourceScore, hrec, hupd, hfail, Nat.add_zero]
  have hc2 : (0 : ℕ) < r.successCount + 1 := Nat.succ_pos _
  rw [if_pos hsucc, if_pos hc2]
  have hrate : (r.successCount : ℚ) / (r.successCount : ℚ) = 1 := div_self hs0
  have hrate' : ((r.successCount + 1 : ℕ) : ℚ) / ((r.successCount + 1 : ℕ) : ℚ) = 1 := by
    apply div_self
    exact_mod_cast Nat.succ_ne_zero r.successCount
  rw [hrate, hrate']
  have hmax1 : max (100 : ℚ) r.avgLatencyMs = r.avgLatencyMs := max_eq_right havg.le
  have hmax2 : max (100 : ℚ) (r.avgLatencyMs * (7/10) + lat * (3/10))
      = r.avgLatencyMs * (7/10) + lat * (3/10) := max_eq_right havg'.le
  rw [hmax1, hmax2]
  have hdiv : 1 / r.avgLatencyMs < 1 / (r.avgLatencyMs * (7/10) + lat * (3/10)) :=
    one_div_lt_one_div_of_lt (by linarith) hlt
  linarith

/-- C6 amended witness: the amended monotonicity applied at a concrete
record (average 300 ms, one success, no failures) and new latency 200 ms. -/
theorem getSourceScore_zero_unknown_and_increase_above_floor_witness :
    getSourceScore emptyHealth "s" = 0 ∧
    getSourceScore (updateHealth emptyHealth "s" true 300 0) "s" <
      getSourceScore
        (updateHealth (updateHealth emptyHealth "s" true 300 0) "s" true 200 1) "s" := by
  exact getSourceScore_zero_unknown_and_increase_above_floor
    (updateHealth emptyHealth "s" true 300 0) "s"
    { avgLatencyMs := 300, successCount := 1, failureCount := 0,
      lastLatencyMs := 300, lastUpdatedAt := 0 }
    200 1
    (by simp only [updateHealth, emptyHealth, Option.getD, if_pos rfl, if_true]; norm_num)
    rfl (by norm_num) (by norm_num) (by norm_num) (by norm_num)

/-- C7: the adaptive concurrency plan equals
`round(base * netFactor * healthFactor)` clamped into `[min, max]` with
`healthFactor = max(0.6, 1 - failureRatio)` over the selected sources'
records; and with `base=3, min=1, max=6`, poor network (`netFactor=0.4`)
and no failure history the plan is 1. -/
theorem getAdaptiveConcurrency_formula_and_poor_network :
    (∀ (h : HealthMap) (sel : List String) (net : ℚ) (base mn mx : ℤ),
      getAdaptiveConcurrency h sel net base mn mx =
        min mx (max mn (jsRound ((base : ℚ) * net *
          max (3/5) (1 - (if 0 < totalAttempts h sel then
            (totalFailures h sel : ℚ) / (totalAttempts h sel : ℚ) else 0))))))
    ∧ getAdaptiveConcurrency emptyHealth ["s1", "s2", "s3", "s4", "s5"] (2/5) 3 1 6 = 1 := by
  constructor
  · intro h sel net base mn mx
    rfl
  · have hjs : jsRound ((((3 : ℤ)) : ℚ) * (2/5) * max (3/5) (1 - 0)) = 1 := by
      rw [jsRound]
      have h17 : ((((3 : ℤ)) : ℚ) * (2/5) * max (3/5) (1 - 0) + 1/2) = 17/10 := by
        norm_num [max_def]
      rw [h17]
      rw [Int.floor_eq_iff]
      norm_num
    have htot : totalAttempts emptyHealth ["s1", "s2", "s3", "s4", "s5"] = 0 := rfl
    simp only [getAdaptiveConcurrency, htot, lt_irrefl, if_false, hjs]
    norm_num

end OuonnkiTV
